import Mathlib

/-!
Verification development for the sign-in authorization logic of
`packages/database/auth/auth-options.ts`.

The file shallowly embeds the custom logic of that module:

* the email normalization used by the `signIn` callback
  (JavaScript `toLowerCase().trim()`);
* the fixed allow-list `INVITE_ONLY_ALLOWED_EMAILS`;
* the invite-only authorization decision of the `signIn` callback
  (lines 128-176), with the database modelled as lists of user,
  organization-member and organization-invite records, and each issued
  query recorded in an explicit trace of database actions;
* the email-resolution precedence of the callback (lines 130-136),
  with JavaScript values modelled by a small sum type distinguishing
  strings from non-strings and tracking truthiness;
* the numeric verification-token generator
  `generateVerificationToken` (lines 77-79).
-/

/-! ## JavaScript string primitives -/

/-- Code points treated as whitespace by JavaScript `String.prototype.trim`
(WhiteSpace and LineTerminator productions). -/
def jsWhitespaceCodes : List Nat :=
  [9, 10, 11, 12, 13, 32, 160, 0x1680, 0x2000, 0x2001, 0x2002, 0x2003,
    0x2004, 0x2005, 0x2006, 0x2007, 0x2008, 0x2009, 0x200a, 0x2028,
    0x2029, 0x202f, 0x205f, 0x3000, 0xfeff]

/-- Whether a character is JavaScript whitespace. -/
def isJsWhitespace (c : Char) : Bool :=
  decide (c.toNat ∈ jsWhitespaceCodes)

/-- JavaScript `String.prototype.toLowerCase`, modelled per code point with
the basic-latin folding `Char.toLower` (the emails handled by this module
are ASCII). -/
def jsToLowerCase (s : String) : String :=
  ⟨s.data.map Char.toLower⟩

/-- Drop JavaScript whitespace from the front and from the back of a
character list. -/
def trimChars (l : List Char) : List Char :=
  ((l.dropWhile isJsWhitespace).reverse.dropWhile isJsWhitespace).reverse

/-- JavaScript `String.prototype.trim`. -/
def jsTrim (s : String) : String :=
  ⟨trimChars s.data⟩

/-- Line 142: `userEmail.toLowerCase().trim()`. -/
def normalizeEmail (s : String) : String :=
  jsTrim (jsToLowerCase s)

/-! ## JavaScript values

The `signIn` callback receives values of unknown dynamic type and inspects
them only through `typeof x === "string"` and truthiness, so the embedding
keeps the exact payload of strings and collapses every non-string value to
its truthiness. -/

/-- A JavaScript value as observed by the `signIn` callback: a string, the
nullish values, or any other value collapsed to its truthiness. -/
inductive JsVal where
  | null
  | undefined
  | str (s : String)
  | other (truthy : Bool)
deriving DecidableEq

/-- JavaScript truthiness: nullish values are falsy, a string is truthy
exactly when it is nonempty. -/
def JsVal.truthy : JsVal → Bool
  | .null => false
  | .undefined => false
  | .str s => !(s == "")
  | .other t => t

/-- JavaScript `typeof v === "string"`. -/
def JsVal.isStr : JsVal → Bool
  | .str _ => true
  | _ => false

/-! ## Database model

The callback reads three tables through drizzle `select ... where eq`
queries; each table is modelled as a list of records. -/

/-- A row of the `users` table, restricted to the columns the callback
reads. -/
structure UserRec where
  id : String
  email : String
deriving DecidableEq

/-- A row of the `organizationMembers` table, restricted to the columns
the callback reads. -/
structure MemberRec where
  id : String
  userId : String
deriving DecidableEq

/-- A row of the `organizationInvites` table, restricted to the columns
the callback reads. -/
structure InviteRec where
  id : String
  email : String
deriving DecidableEq

/-- The database state visible to the callback. -/
structure DB where
  users : List UserRec
  members : List MemberRec
  invites : List InviteRec
deriving DecidableEq

/-- Database actions. The callback only ever emits the three select
actions; the write actions exist so that read-onlyness is a fact about
the emitted trace rather than about the action type. -/
inductive DbAction where
  | selectUserByEmail (email : String)
  | selectMembersByUserId (userId : String)
  | selectInvitesByEmail (email : String)
  | insertUser (u : UserRec)
  | insertMember (m : MemberRec)
  | insertInvite (i : InviteRec)
  | deleteUserById (id : String)
  | deleteInviteById (id : String)
deriving DecidableEq

/-- Effect of one database action on the database state: selects read
only, inserts append a row, deletes remove rows by id. -/
def applyDbAction (db : DB) (a : DbAction) : DB :=
  match a with
  | .selectUserByEmail _ => db
  | .selectMembersByUserId _ => db
  | .selectInvitesByEmail _ => db
  | .insertUser u => { db with users := db.users ++ [u] }
  | .insertMember m => { db with members := db.members ++ [m] }
  | .insertInvite i => { db with invites := db.invites ++ [i] }
  | .deleteUserById i => { db with users := db.users.filter (fun u => !(u.id == i)) }
  | .deleteInviteById i => { db with invites := db.invites.filter (fun v => !(v.id == i)) }

/-- Whether a database action is a pure read. -/
def DbAction.isRead : DbAction → Bool
  | .selectUserByEmail _ => true
  | .selectMembersByUserId _ => true
  | .selectInvitesByEmail _ => true
  | _ => false

/-! ## The invite-only allow-list (lines 20-24) -/

/-- Lines 20-24: the fixed allow-list, each entry lower-cased at
construction. Membership in the JavaScript `Set` is exact string
equality, modelled by `List.contains`. -/
def INVITE_ONLY_ALLOWED_EMAILS : List String :=
  ["gustavo.toledo@gmail.com", "johannaosoriolizarazo@gmail.com"].map jsToLowerCase

/-! ## The signIn callback (lines 128-176) -/

/-- Outcome of one run of the callback: the boolean decision, the trace of
database actions issued, and the console lines emitted. -/
structure RunResult where
  result : Bool
  queries : List DbAction
  logs : List String
deriving DecidableEq

/-- Line 174: the console.warn line emitted on the strict invite-only
fallthrough. -/
def auditLine (normalizedEmail : String) : String :=
  "Signup blocked (invite-only): " ++ normalizedEmail

/-- Lines 164-175: the invite lookup and the strict fallthrough. The
`limit(1)` query followed by a `length > 0` test is existence of a
matching row. `qs` is the trace accumulated by the earlier steps. -/
def inviteLookup (normalizedEmail : String) (db : DB) (qs : List DbAction) : RunResult :=
  let hasInvite := db.invites.any (fun i => i.email == normalizedEmail)
  if hasInvite then
    ⟨true, qs ++ [DbAction.selectInvitesByEmail normalizedEmail], []⟩
  else
    ⟨false, qs ++ [DbAction.selectInvitesByEmail normalizedEmail], [auditLine normalizedEmail]⟩

/-- Lines 148-175: the user lookup (first row matching the normalized
email), the `existingUser?.id` truthiness test (false both when no row
was found and when the id column is the empty string), the membership
lookup, and the invite fallthrough. -/
def memberAndInviteLookup (normalizedEmail : String) (db : DB) : RunResult :=
  let existingUser := db.users.find? (fun u => u.email == normalizedEmail)
  let qs := [DbAction.selectUserByEmail normalizedEmail]
  match existingUser with
  | some u =>
    if u.id == "" then
      inviteLookup normalizedEmail db qs
    else
      let hasMember := db.members.any (fun m => m.userId == u.id)
      let qs := qs ++ [DbAction.selectMembersByUserId u.id]
      if hasMember then ⟨true, qs, []⟩
      else inviteLookup normalizedEmail db qs
  | none => inviteLookup normalizedEmail db qs

/-- Lines 139-175: the decision on the resolved email. Line 139 rejects
every non-string and, through the `!userEmail` truthiness test, the empty
string; line 142 normalizes; line 145 is the allow-list short circuit;
the remaining steps are the two lookups and the strict fallthrough. -/
def authorize (userEmail : JsVal) (db : DB) : RunResult :=
  match userEmail with
  | JsVal.str s =>
    if s = "" then ⟨false, [], []⟩
    else
      let normalizedEmail := normalizeEmail s
      if INVITE_ONLY_ALLOWED_EMAILS.contains normalizedEmail then ⟨true, [], []⟩
      else memberAndInviteLookup normalizedEmail db
  | _ => ⟨false, [], []⟩

/-- Lines 130-136: resolution of the candidate email with the precedence
`user?.email || (typeof email === "string" ? email : typeof
credentials?.email === "string" ? credentials.email : null)`. The three
arguments are the values of `user?.email`, `email` and
`credentials?.email`. -/
def resolveEmail (userEmail email credEmail : JsVal) : JsVal :=
  if userEmail.truthy then userEmail
  else if email.isStr then email
  else if credEmail.isStr then credEmail
  else JsVal.null

/-- Lines 128-176: the whole signIn callback, from the raw inputs. -/
def signIn (userEmail email credEmail : JsVal) (db : DB) : RunResult :=
  authorize (resolveEmail userEmail email credEmail) db

/-! ## The verification-token generator (lines 77-79) -/

/-- Node `crypto.randomInt(lo, hi)`: an integer uniformly drawn from
`[lo, hi)`, modelled as a function of the randomness source `r`. -/
def randomInt (lo hi : Nat) (r : Nat) : Nat :=
  lo + r % (hi - lo)

/-- JavaScript `Number.prototype.toString` on a nonnegative integer:
its decimal digit string. -/
def jsNumberToString (n : Nat) : String :=
  if n = 0 then "0" else ⟨((Nat.digits 10 n).map Nat.digitChar).reverse⟩

/-- Lines 77-79: `crypto.randomInt(100000, 1000000).toString()`. -/
def generateVerificationToken (r : Nat) : String :=
  jsNumberToString (randomInt 100000 1000000 r)

/-! ## Database well-formedness

Invariants of the data model (spec section 3): identifiers are the
nonempty primary keys generated by the schema, there is one user record
per normalized email, and stored emails are actual addresses, hence
nonempty. -/

/-- Well-formedness of a database state. -/
def DB.WF (db : DB) : Prop :=
  (∀ u ∈ db.users, u.id ≠ "" ∧ u.email ≠ "") ∧
  (∀ u ∈ db.users, ∀ v ∈ db.users, u.email = v.email → u = v) ∧
  (∀ i ∈ db.invites, i.email ≠ "")

/-- The empty database state. -/
def emptyDb : DB :=
  ⟨[], [], []⟩

/-- A database state holding one user who belongs to one organization,
and no invites. -/
def memberDb : DB :=
  ⟨[⟨"u1", "member@example.com"⟩], [⟨"m1", "u1"⟩], []⟩

/-- Some user record carries the given email and belongs to at least one
organization. -/
def memberUserExists (db : DB) (n : String) : Prop :=
  ∃ u ∈ db.users, u.email = n ∧ ∃ m ∈ db.members, m.userId = u.id

/-- Some pending invite targets the given email. -/
def inviteExists (db : DB) (n : String) : Prop :=
  ∃ i ∈ db.invites, i.email = n

instance (db : DB) : Decidable db.WF := by
  unfold DB.WF
  infer_instance

instance (db : DB) (n : String) : Decidable (memberUserExists db n) := by
  unfold memberUserExists
  infer_instance

instance (db : DB) (n : String) : Decidable (inviteExists db n) := by
  unfold inviteExists
  infer_instance

/-! ## Character-level lemmas -/

/-- Packing a valid code point and unpacking it is the identity. -/
theorem toNat_charOfNat_of_valid {n : Nat} (h : n.isValidChar) :
    (Char.ofNat n).toNat = n := by
  unfold Char.ofNat
  rw [dif_pos h]
  rfl

/-- On an upper-case basic-latin letter, `Char.toLower` adds 32 to the code
point. -/
theorem toNat_toLower_of_upper {c : Char} (h : 65 ≤ c.toNat ∧ c.toNat ≤ 90) :
    (Char.toLower c).toNat = c.toNat + 32 := by
  unfold Char.toLower
  rw [if_pos h]
  exact toNat_charOfNat_of_valid (Or.inl (by omega))

/-- Off the upper-case basic-latin range, `Char.toLower` is the identity. -/
theorem toLower_of_not_upper {c : Char} (h : ¬(65 ≤ c.toNat ∧ c.toNat ≤ 90)) :
    Char.toLower c = c := by
  unfold Char.toLower
  rw [if_neg h]

/-- Lower-casing is idempotent. -/
theorem toLower_toLower (c : Char) :
    Char.toLower (Char.toLower c) = Char.toLower c := by
  by_cases h : 65 ≤ c.toNat ∧ c.toNat ≤ 90
  · have h1 := toNat_toLower_of_upper h
    exact toLower_of_not_upper (by omega)
  · rw [toLower_of_not_upper h]
    exact toLower_of_not_upper h

/-- Lower-casing neither creates nor destroys JavaScript whitespace. -/
theorem isJsWhitespace_toLower (c : Char) :
    isJsWhitespace (Char.toLower c) = isJsWhitespace c := by
  by_cases h : 65 ≤ c.toNat ∧ c.toNat ≤ 90
  · have h1 := toNat_toLower_of_upper h
    unfold isJsWhitespace jsWhitespaceCodes
    rw [decide_eq_decide]
    simp only [List.mem_cons, List.not_mem_nil, or_false, h1]
    omega
  · rw [toLower_of_not_upper h]

/-! ## Trimming lemmas -/

/-- The head of a dropWhile result does not satisfy the predicate. -/
theorem dropWhile_head?_false {α : Type} {p : α → Bool} {l : List α} {x : α}
    (h : (l.dropWhile p).head? = some x) : p x = false := by
  have hm := List.head?_dropWhile_not p l
  rw [h] at hm
  exact hm

/-- A list whose head does not satisfy the predicate is untouched by
dropWhile. -/
theorem dropWhile_eq_self_of_head? {α : Type} {p : α → Bool} {l : List α}
    (h : ∀ x, l.head? = some x → p x = false) : l.dropWhile p = l := by
  cases l with
  | nil => rfl
  | cons a as =>
    have ha : p a = false := h a rfl
    simp [List.dropWhile_cons, ha]

/-- dropWhile keeps the last element of the list when it keeps anything
at all. -/
theorem getLast?_dropWhile {α : Type} {p : α → Bool} {l : List α}
    (h : l.dropWhile p ≠ []) : (l.dropWhile p).getLast? = l.getLast? := by
  induction l with
  | nil => simp at h
  | cons a as ih =>
    by_cases hp : p a = true
    · rw [List.dropWhile_cons, if_pos hp] at h ⊢
      cases as with
      | nil => simp at h
      | cons b bs => rw [ih h, List.getLast?_cons_cons]
    · rw [List.dropWhile_cons, if_neg hp]

/-- The first character of a trimmed list is not whitespace. -/
theorem trimChars_head?_false {l : List Char} {x : Char}
    (h : (trimChars l).head? = some x) : isJsWhitespace x = false := by
  unfold trimChars at h
  rw [List.head?_reverse] at h
  have hne : (l.dropWhile isJsWhitespace).reverse.dropWhile isJsWhitespace ≠ [] := by
    intro e
    rw [e] at h
    simp at h
  rw [getLast?_dropWhile hne, List.getLast?_reverse] at h
  exact dropWhile_head?_false h

/-- The last character of a trimmed list is not whitespace. -/
theorem trimChars_getLast?_false {l : List Char} {x : Char}
    (h : (trimChars l).getLast? = some x) : isJsWhitespace x = false := by
  unfold trimChars at h
  rw [List.getLast?_reverse] at h
  exact dropWhile_head?_false h

/-- Trimming is idempotent. -/
theorem trimChars_trimChars (l : List Char) :
    trimChars (trimChars l) = trimChars l := by
  have h1 : (trimChars l).dropWhile isJsWhitespace = trimChars l :=
    dropWhile_eq_self_of_head? (fun x hx => trimChars_head?_false hx)
  have h2 : (trimChars l).reverse.dropWhile isJsWhitespace = (trimChars l).reverse := by
    refine dropWhile_eq_self_of_head? (fun x hx => ?_)
    rw [List.head?_reverse] at hx
    exact trimChars_getLast?_false hx
  conv_lhs => rw [trimChars, h1, h2, List.reverse_reverse]

/-- Trimming commutes with lower-casing. -/
theorem trimChars_map_toLower (l : List Char) :
    trimChars (l.map Char.toLower) = (trimChars l).map Char.toLower := by
  have he : (isJsWhitespace ∘ Char.toLower) = isJsWhitespace :=
    funext isJsWhitespace_toLower
  have hp : ∀ (m : List Char), (m.map Char.toLower).dropWhile isJsWhitespace
      = (m.dropWhile isJsWhitespace).map Char.toLower := by
    intro m
    rw [List.dropWhile_map, he]
  unfold trimChars
  rw [hp, ← List.map_reverse, hp, List.map_reverse]

/-- Lower-casing a character list is idempotent. -/
theorem map_toLower_idem (l : List Char) :
    (l.map Char.toLower).map Char.toLower = l.map Char.toLower := by
  rw [List.map_map]
  have he : (Char.toLower ∘ Char.toLower) = Char.toLower := funext toLower_toLower
  rw [he]

/-- The character data of a normalized email. -/
theorem data_normalizeEmail (s : String) :
    (normalizeEmail s).data = trimChars (s.data.map Char.toLower) := rfl

/-- Normalization is idempotent: normalizing an already-normalized email
changes nothing. -/
theorem normalizeEmail_idem (s : String) :
    normalizeEmail (normalizeEmail s) = normalizeEmail s := by
  apply String.ext
  show trimChars ((trimChars (s.data.map Char.toLower)).map Char.toLower)
      = trimChars (s.data.map Char.toLower)
  rw [trimChars_map_toLower, trimChars_trimChars, ← trimChars_map_toLower,
    map_toLower_idem]

/-! ## Decision characterization lemmas -/

/-- Normalizing the empty string yields the empty string. -/
theorem normalizeEmail_empty : normalizeEmail "" = "" := by decide

/-- The allow-list does not hold the empty string. -/
theorem contains_empty_false : INVITE_ONLY_ALLOWED_EMAILS.contains "" = false := by decide

/-- The decision of the invite lookup is existence of a matching invite
row. -/
theorem inviteLookup_result (n : String) (db : DB) (qs : List DbAction) :
    (inviteLookup n db qs).result = db.invites.any (fun i => i.email == n) := by
  simp only [inviteLookup]
  split <;> simp_all

/-- When no invite matches, the invite lookup denies and emits the audit
line. -/
theorem inviteLookup_eq_neg {n : String} {db : DB} {qs : List DbAction}
    (h : db.invites.any (fun i => i.email == n) = false) :
    inviteLookup n db qs
      = ⟨false, qs ++ [DbAction.selectInvitesByEmail n], [auditLine n]⟩ := by
  simp only [inviteLookup]
  rw [if_neg (by simp [h])]

/-- Boolean invite scan versus the invite-existence predicate. -/
theorem any_invites_iff {n : String} {db : DB} :
    (db.invites.any (fun i => i.email == n) = true) ↔ inviteExists db n := by
  simp [inviteExists]

/-- Boolean membership scan versus membership existence. -/
theorem any_members_iff {uid : String} {db : DB} :
    (db.members.any (fun m => m.userId == uid) = true)
      ↔ ∃ m ∈ db.members, m.userId = uid := by
  simp

/-- Case equation: no user row matches the normalized email. -/
theorem memberAndInviteLookup_eq_none {n : String} {db : DB}
    (hfind : db.users.find? (fun u => u.email == n) = none) :
    memberAndInviteLookup n db
      = inviteLookup n db [DbAction.selectUserByEmail n] := by
  simp only [memberAndInviteLookup]
  rw [hfind]

/-- Case equation: a user row matches but its id column is empty, so the
`existingUser?.id` test fails and the membership lookup is skipped. -/
theorem memberAndInviteLookup_eq_some_empty {n : String} {db : DB} {u0 : UserRec}
    (hfind : db.users.find? (fun u => u.email == n) = some u0)
    (hid : (u0.id == "") = true) :
    memberAndInviteLookup n db
      = inviteLookup n db [DbAction.selectUserByEmail n] := by
  simp only [memberAndInviteLookup]
  rw [hfind]
  simp only [hid, if_true]

/-- Case equation: a user row matches and has a membership row. -/
theorem memberAndInviteLookup_eq_some_member {n : String} {db : DB} {u0 : UserRec}
    (hfind : db.users.find? (fun u => u.email == n) = some u0)
    (hid : (u0.id == "") = false)
    (hmem : db.members.any (fun m => m.userId == u0.id) = true) :
    memberAndInviteLookup n db
      = ⟨true, [DbAction.selectUserByEmail n, DbAction.selectMembersByUserId u0.id], []⟩ := by
  simp only [memberAndInviteLookup]
  rw [hfind]
  simp only [hid, hmem, if_false, if_true]
  rfl

/-- Case equation: a user row matches but has no membership row. -/
theorem memberAndInviteLookup_eq_some_nomember {n : String} {db : DB} {u0 : UserRec}
    (hfind : db.users.find? (fun u => u.email == n) = some u0)
    (hid : (u0.id == "") = false)
    (hmem : db.members.any (fun m => m.userId == u0.id) = false) :
    memberAndInviteLookup n db
      = inviteLookup n db
          [DbAction.selectUserByEmail n, DbAction.selectMembersByUserId u0.id] := by
  simp only [memberAndInviteLookup]
  rw [hfind]
  simp only [hid, hmem, if_false]
  rfl

/-- On a well-formed database the lookup cascade grants access exactly to
organization members and invited addresses. -/
theorem memberAndInviteLookup_result_iff (n : String) (db : DB) (hwf : db.WF) :
    (memberAndInviteLookup n db).result = true
      ↔ memberUserExists db n ∨ inviteExists db n := by
  cases hfind : db.users.find? (fun u => u.email == n) with
  | none =>
    rw [memberAndInviteLookup_eq_none hfind, inviteLookup_result, any_invites_iff]
    constructor
    · exact Or.inr
    · rintro (hm | hi)
      · exfalso
        obtain ⟨u, hu, he, _⟩ := hm
        rw [List.find?_eq_none] at hfind
        exact hfind u hu (by simp [he])
      · exact hi
  | some u0 =>
    have hu0 : u0 ∈ db.users := List.mem_of_find?_eq_some hfind
    have he0 : u0.email = n := by simpa using List.find?_some hfind
    have hid : (u0.id == "") = false := by
      simpa using (hwf.1 u0 hu0).1
    by_cases hmem : db.members.any (fun m => m.userId == u0.id) = true
    · rw [memberAndInviteLookup_eq_some_member hfind hid hmem]
      constructor
      · intro _
        left
        obtain ⟨m, hm, hmid⟩ := any_members_iff.1 hmem
        exact ⟨u0, hu0, he0, m, hm, hmid⟩
      · intro _
        rfl
    · have hmem' : db.members.any (fun m => m.userId == u0.id) = false :=
        Bool.not_eq_true _ ▸ hmem
      rw [memberAndInviteLookup_eq_some_nomember hfind hid hmem',
        inviteLookup_result, any_invites_iff]
      constructor
      · exact Or.inr
      · rintro (hm | hi)
        · exfalso
          obtain ⟨u, hu, he, m, hmm, hmid⟩ := hm
          have heq : u = u0 := hwf.2.1 u hu u0 hu0 (he.trans he0.symm)
          subst heq
          apply hmem
          rw [List.any_eq_true]
          exact ⟨m, hmm, by simp [hmid]⟩
        · exact hi

/-- On a well-formed database the lookup cascade never grants access to
the empty email. -/
theorem memberAndInviteLookup_result_empty (db : DB) (hwf : db.WF) :
    (memberAndInviteLookup "" db).result = false := by
  rw [← Bool.not_eq_true, memberAndInviteLookup_result_iff "" db hwf]
  rintro (⟨u, hu, he, _⟩ | ⟨i, hi, he⟩)
  · exact (hwf.1 u hu).2 he
  · exact hwf.2.2 i hi he

/-- The gate rejects the empty candidate string. -/
theorem authorize_str_empty (db : DB) : authorize (JsVal.str "") db = ⟨false, [], []⟩ := by
  simp [authorize]

/-- The gate rejects every non-string candidate. -/
theorem authorize_not_str {v : JsVal} (db : DB) (hv : v.isStr = false) :
    authorize v db = ⟨false, [], []⟩ := by
  cases v <;> simp_all [authorize, JsVal.isStr]

/-- Case equation: a nonempty allow-listed candidate short-circuits. -/
theorem authorize_str_allowed {s : String} (db : DB) (hs : s ≠ "")
    (hal : INVITE_ONLY_ALLOWED_EMAILS.contains (normalizeEmail s) = true) :
    authorize (JsVal.str s) db = ⟨true, [], []⟩ := by
  simp only [authorize]
  rw [if_neg hs, if_pos hal]

/-- Case equation: a nonempty candidate off the allow-list reaches the
lookup cascade. -/
theorem authorize_str_of_ne {s : String} (db : DB) (hs : s ≠ "")
    (hal : INVITE_ONLY_ALLOWED_EMAILS.contains (normalizeEmail s) = false) :
    authorize (JsVal.str s) db = memberAndInviteLookup (normalizeEmail s) db := by
  simp only [authorize]
  rw [if_neg hs, if_neg (by simpa using hal)]

/-- A grant by the lookup cascade always exhibits a member user or an
invite, on any database state. -/
theorem memberAndInviteLookup_true_implies (n : String) (db : DB)
    (h : (memberAndInviteLookup n db).result = true) :
    memberUserExists db n ∨ inviteExists db n := by
  cases hfind : db.users.find? (fun u => u.email == n) with
  | none =>
    rw [memberAndInviteLookup_eq_none hfind, inviteLookup_result,
      any_invites_iff] at h
    exact Or.inr h
  | some u0 =>
    by_cases hid : (u0.id == "") = true
    · rw [memberAndInviteLookup_eq_some_empty hfind hid, inviteLookup_result,
        any_invites_iff] at h
      exact Or.inr h
    · have hid2 : (u0.id == "") = false := Bool.eq_false_iff.2 hid
      by_cases hmem : db.members.any (fun m => m.userId == u0.id) = true
      · left
        obtain ⟨m, hm, hmid⟩ := any_members_iff.1 hmem
        exact ⟨u0, List.mem_of_find?_eq_some hfind,
          by simpa using List.find?_some hfind, m, hm, hmid⟩
      · have hmem2 : db.members.any (fun m => m.userId == u0.id) = false :=
          Bool.eq_false_iff.2 hmem
        rw [memberAndInviteLookup_eq_some_nomember hfind hid2 hmem2,
          inviteLookup_result, any_invites_iff] at h
        exact Or.inr h

/-! ## Claim theorems -/

/-- C1: for every candidate email and every well-formed database state,
the signIn authorization decision is true exactly when the normalized
email is allow-listed, or a user record with that email exists and has at
least one organization-membership record, or a pending invite exists for
that email; in every other case it is false. -/
theorem c1_decision_iff (s : String) (db : DB) (hwf : db.WF) :
    (authorize (JsVal.str s) db).result = true
      ↔ (INVITE_ONLY_ALLOWED_EMAILS.contains (normalizeEmail s) = true
          ∨ memberUserExists db (normalizeEmail s)
          ∨ inviteExists db (normalizeEmail s)) := by
  by_cases hs : s = ""
  · subst hs
    rw [authorize_str_empty]
    constructor
    · intro h
      exact absurd h (by decide)
    · rintro (h | hm | hi)
      · rw [normalizeEmail_empty, contains_empty_false] at h
        exact Bool.noConfusion h
      · obtain ⟨u, hu, he, _⟩ := hm
        rw [normalizeEmail_empty] at he
        exact absurd he (hwf.1 u hu).2
      · obtain ⟨i, hi2, he⟩ := hi
        rw [normalizeEmail_empty] at he
        exact absurd he (hwf.2.2 i hi2)
  · by_cases hal : INVITE_ONLY_ALLOWED_EMAILS.contains (normalizeEmail s) = true
    · rw [authorize_str_allowed db hs hal]
      constructor
      · intro _
        exact Or.inl hal
      · intro _
        rfl
    · have hal2 : INVITE_ONLY_ALLOWED_EMAILS.contains (normalizeEmail s) = false :=
        Bool.eq_false_iff.2 hal
      rw [authorize_str_of_ne db hs hal2,
        memberAndInviteLookup_result_iff _ db hwf]
      constructor
      · exact Or.inr
      · rintro (h | h)
        · rw [hal2] at h
          exact Bool.noConfusion h
        · exact h

/-- Witness for C1 on a concrete member database. -/
theorem c1_decision_iff_witness :
    memberDb.WF
    ∧ ((authorize (JsVal.str "member@example.com") memberDb).result = true
        ↔ (INVITE_ONLY_ALLOWED_EMAILS.contains (normalizeEmail "member@example.com") = true
            ∨ memberUserExists memberDb (normalizeEmail "member@example.com")
            ∨ inviteExists memberDb (normalizeEmail "member@example.com"))) :=
  ⟨by decide, c1_decision_iff "member@example.com" memberDb (by decide)⟩

/-- C2: every email whose normalized form is allow-listed is granted with
zero database lookups. -/
theorem c2_allowlist_no_lookup (s : String) (db : DB)
    (hal : INVITE_ONLY_ALLOWED_EMAILS.contains (normalizeEmail s) = true) :
    (authorize (JsVal.str s) db).result = true
    ∧ (authorize (JsVal.str s) db).queries = [] := by
  have hs : s ≠ "" := by
    intro e
    subst e
    rw [normalizeEmail_empty, contains_empty_false] at hal
    exact Bool.noConfusion hal
  rw [authorize_str_allowed db hs hal]
  exact ⟨rfl, rfl⟩

/-- Witness for C2: the spec scenario for the first allow-list entry. -/
theorem c2_allowlist_no_lookup_witness :
    normalizeEmail "GUSTAVO.TOLEDO@gmail.com" = "gustavo.toledo@gmail.com"
    ∧ INVITE_ONLY_ALLOWED_EMAILS.contains (normalizeEmail "GUSTAVO.TOLEDO@gmail.com") = true
    ∧ (authorize (JsVal.str "GUSTAVO.TOLEDO@gmail.com") emptyDb).result = true
    ∧ (authorize (JsVal.str "GUSTAVO.TOLEDO@gmail.com") emptyDb).queries = [] :=
  ⟨by decide, by decide,
    c2_allowlist_no_lookup "GUSTAVO.TOLEDO@gmail.com" emptyDb (by decide)⟩

/-- C3: on every well-formed database state the decision for an email and
for its normalized form coincide. -/
theorem c3_normalize_invariant (s : String) (db : DB) (hwf : db.WF) :
    (authorize (JsVal.str s) db).result
      = (authorize (JsVal.str (normalizeEmail s)) db).result := by
  by_cases hs : s = ""
  · subst hs
    rw [normalizeEmail_empty]
  · by_cases hn : normalizeEmail s = ""
    · have hal : INVITE_ONLY_ALLOWED_EMAILS.contains (normalizeEmail s) = false := by
        rw [hn]
        exact contains_empty_false
      rw [hn, authorize_str_empty, authorize_str_of_ne db hs hal, hn]
      exact memberAndInviteLookup_result_empty db hwf
    · by_cases hal : INVITE_ONLY_ALLOWED_EMAILS.contains (normalizeEmail s) = true
      · rw [authorize_str_allowed db hs hal,
          authorize_str_allowed db hn (by rwa [normalizeEmail_idem])]
      · have hal2 : INVITE_ONLY_ALLOWED_EMAILS.contains (normalizeEmail s) = false :=
          Bool.eq_false_iff.2 hal
        rw [authorize_str_of_ne db hs hal2,
          authorize_str_of_ne db hn (by rwa [normalizeEmail_idem]),
          normalizeEmail_idem]

/-- Witness for C3 on the spec example pair. -/
theorem c3_normalize_invariant_witness :
    memberDb.WF
    ∧ (authorize (JsVal.str " Foo@Bar.com ") memberDb).result
        = (authorize (JsVal.str (normalizeEmail " Foo@Bar.com ")) memberDb).result :=
  ⟨by decide, c3_normalize_invariant " Foo@Bar.com " memberDb (by decide)⟩

/-- C4 counterexample: an email outside the allow-list is nevertheless
granted on a database where its user is an organization member, so
non-allow-listed emails are not always denied. -/
theorem c4_counterexample :
    INVITE_ONLY_ALLOWED_EMAILS.contains (normalizeEmail "member@example.com") = false
    ∧ (authorize (JsVal.str "member@example.com") memberDb).result = true := by
  decide

/-- C4 (amended): absent or non-string inputs are always denied, and an
email not on the allow-list is denied provided no member user and no
pending invite exists for its normalized form. -/
theorem c4_denials (db : DB) :
    (∀ v : JsVal, v.isStr = false → (authorize v db).result = false)
    ∧ (∀ s : String,
        INVITE_ONLY_ALLOWED_EMAILS.contains (normalizeEmail s) = false →
        ¬ memberUserExists db (normalizeEmail s) →
        ¬ inviteExists db (normalizeEmail s) →
        (authorize (JsVal.str s) db).result = false) := by
  constructor
  · intro v hv
    rw [authorize_not_str db hv]
  · intro s hal hm hi
    by_cases hs : s = ""
    · subst hs
      rw [authorize_str_empty]
    · rw [authorize_str_of_ne db hs hal, ← Bool.not_eq_true]
      intro h
      rcases memberAndInviteLookup_true_implies _ db h with hx | hx
      · exact hm hx
      · exact hi hx

/-- Witness for C4 (amended): a null input and an unknown email on the
empty database are both denied. -/
theorem c4_denials_witness :
    (authorize JsVal.null emptyDb).result = false
    ∧ (authorize (JsVal.str "stranger@nowhere.com") emptyDb).result = false :=
  ⟨(c4_denials emptyDb).1 JsVal.null (by decide),
    (c4_denials emptyDb).2 "stranger@nowhere.com" (by decide) (by decide) (by decide)⟩

/-- C5: on a well-formed database, a user record with the normalized email
and at least one organization membership is granted, whatever the
invites. -/
theorem c5_member_granted (s : String) (db : DB) (hwf : db.WF)
    (hm : memberUserExists db (normalizeEmail s)) :
    (authorize (JsVal.str s) db).result = true := by
  have hs : s ≠ "" := by
    intro e
    subst e
    obtain ⟨u, hu, he, _⟩ := hm
    rw [normalizeEmail_empty] at he
    exact (hwf.1 u hu).2 he
  by_cases hal : INVITE_ONLY_ALLOWED_EMAILS.contains (normalizeEmail s) = true
  · rw [authorize_str_allowed db hs hal]
  · have hal2 : INVITE_ONLY_ALLOWED_EMAILS.contains (normalizeEmail s) = false :=
      Bool.eq_false_iff.2 hal
    rw [authorize_str_of_ne db hs hal2]
    exact (memberAndInviteLookup_result_iff _ db hwf).2 (Or.inl hm)

/-- Witness for C5: the member database grants its member although it
holds no invite at all. -/
theorem c5_member_granted_witness :
    memberDb.WF
    ∧ memberUserExists memberDb (normalizeEmail "member@example.com")
    ∧ memberDb.invites = []
    ∧ (authorize (JsVal.str "member@example.com") memberDb).result = true :=
  ⟨by decide, by decide, rfl,
    c5_member_granted "member@example.com" memberDb (by decide) (by decide)⟩

/-- C6: an absent (null) or non-string candidate is denied immediately:
no lookup is issued and nothing is logged. -/
theorem c6_non_string_denied (v : JsVal) (db : DB) (hv : v.isStr = false) :
    authorize v db = ⟨false, [], []⟩ :=
  authorize_not_str db hv

/-- Witness for C6: the null input on the empty database. -/
theorem c6_non_string_denied_witness :
    authorize JsVal.null emptyDb = ⟨false, [], []⟩ :=
  c6_non_string_denied JsVal.null emptyDb (by decide)

/-- C7: on the strict invite-only fallthrough (nonempty email, not
allow-listed, no member user, no invite) the decision is false and
exactly one audit line is emitted, and that line contains the normalized
blocked email as a substring. -/
theorem c7_audit_line (s : String) (db : DB) (hs : s ≠ "")
    (hal : INVITE_ONLY_ALLOWED_EMAILS.contains (normalizeEmail s) = false)
    (hm : ¬ memberUserExists db (normalizeEmail s))
    (hi : ¬ inviteExists db (normalizeEmail s)) :
    (authorize (JsVal.str s) db).result = false
    ∧ (authorize (JsVal.str s) db).logs = [auditLine (normalizeEmail s)]
    ∧ ∃ p, auditLine (normalizeEmail s) = p ++ normalizeEmail s := by
  have hinv : db.invites.any (fun i => i.email == normalizeEmail s) = false := by
    rw [← Bool.not_eq_true]
    intro h
    exact hi (any_invites_iff.1 h)
  rw [authorize_str_of_ne db hs hal]
  have hcase : memberAndInviteLookup (normalizeEmail s) db
      = inviteLookup (normalizeEmail s) db [DbAction.selectUserByEmail (normalizeEmail s)]
      ∨ ∃ u0 : UserRec, memberAndInviteLookup (normalizeEmail s) db
        = inviteLookup (normalizeEmail s) db
            [DbAction.selectUserByEmail (normalizeEmail s),
              DbAction.selectMembersByUserId u0.id] := by
    cases hfind : db.users.find? (fun u => u.email == normalizeEmail s) with
    | none =>
      exact Or.inl (memberAndInviteLookup_eq_none hfind)
    | some u0 =>
      by_cases hid : (u0.id == "") = true
      · exact Or.inl (memberAndInviteLookup_eq_some_empty hfind hid)
      · have hid2 : (u0.id == "") = false := Bool.eq_false_iff.2 hid
        have hmem : db.members.any (fun m => m.userId == u0.id) = false := by
          rw [← Bool.not_eq_true]
          intro h
          obtain ⟨m, hmm, hmid⟩ := any_members_iff.1 h
          exact hm ⟨u0, List.mem_of_find?_eq_some hfind,
            by simpa using List.find?_some hfind, m, hmm, hmid⟩
        exact Or.inr ⟨u0, memberAndInviteLookup_eq_some_nomember hfind hid2 hmem⟩
  rcases hcase with hc | ⟨u0, hc⟩ <;>
    rw [hc, inviteLookup_eq_neg hinv] <;>
    exact ⟨rfl, rfl, "Signup blocked (invite-only): ", rfl⟩

/-- Witness for C7: the spec scenario on the empty database. -/
theorem c7_audit_line_witness :
    normalizeEmail "random@nowhere.com" = "random@nowhere.com"
    ∧ (authorize (JsVal.str "random@nowhere.com") emptyDb).result = false
    ∧ (authorize (JsVal.str "random@nowhere.com") emptyDb).logs
        = [auditLine (normalizeEmail "random@nowhere.com")]
    ∧ ∃ p, auditLine (normalizeEmail "random@nowhere.com")
        = p ++ normalizeEmail "random@nowhere.com" :=
  ⟨by decide,
    c7_audit_line "random@nowhere.com" emptyDb (by decide) (by decide)
      (by decide) (by decide)⟩

/-- Every query in the trace of the invite lookup is a read, given that
the accumulated trace is. -/
theorem inviteLookup_queries_reads (n : String) (db : DB) (qs : List DbAction)
    (h : qs.all DbAction.isRead = true) :
    (inviteLookup n db qs).queries.all DbAction.isRead = true := by
  simp only [inviteLookup]
  split <;> simp [List.all_append, h, DbAction.isRead]

/-- Every query in the trace of the lookup cascade is a read. -/
theorem memberAndInviteLookup_queries_reads (n : String) (db : DB) :
    (memberAndInviteLookup n db).queries.all DbAction.isRead = true := by
  cases hfind : db.users.find? (fun u => u.email == n) with
  | none =>
    rw [memberAndInviteLookup_eq_none hfind]
    exact inviteLookup_queries_reads n db _ rfl
  | some u0 =>
    by_cases hid : (u0.id == "") = true
    · rw [memberAndInviteLookup_eq_some_empty hfind hid]
      exact inviteLookup_queries_reads n db _ rfl
    · have hid2 : (u0.id == "") = false := Bool.eq_false_iff.2 hid
      by_cases hmem : db.members.any (fun m => m.userId == u0.id) = true
      · rw [memberAndInviteLookup_eq_some_member hfind hid2 hmem]
        rfl
      · have hmem2 : db.members.any (fun m => m.userId == u0.id) = false :=
          Bool.eq_false_iff.2 hmem
        rw [memberAndInviteLookup_eq_some_nomember hfind hid2 hmem2]
        exact inviteLookup_queries_reads n db _ rfl

/-- Every query in the trace of one authorization run is a read. -/
theorem authorize_queries_reads (v : JsVal) (db : DB) :
    (authorize v db).queries.all DbAction.isRead = true := by
  cases v with
  | str s =>
    by_cases hs : s = ""
    · subst hs
      rw [authorize_str_empty]
      rfl
    · by_cases hal : INVITE_ONLY_ALLOWED_EMAILS.contains (normalizeEmail s) = true
      · rw [authorize_str_allowed db hs hal]
        rfl
      · rw [authorize_str_of_ne db hs (Bool.eq_false_iff.2 hal)]
        exact memberAndInviteLookup_queries_reads _ db
  | null => rfl
  | undefined => rfl
  | other t => rfl

/-- A read action leaves the database unchanged. -/
theorem applyDbAction_of_read {db : DB} {a : DbAction} (h : a.isRead = true) :
    applyDbAction db a = db := by
  cases a <;> simp_all [DbAction.isRead, applyDbAction]

/-- Replaying a trace of reads leaves the database unchanged. -/
theorem foldl_apply_of_reads {l : List DbAction} (db : DB)
    (h : l.all DbAction.isRead = true) :
    l.foldl applyDbAction db = db := by
  induction l generalizing db with
  | nil => rfl
  | cons a as ih =>
    rw [List.all_cons, Bool.and_eq_true] at h
    rw [List.foldl_cons, applyDbAction_of_read h.1]
    exact ih db h.2

/-- C8: for every input and every database state, the signIn callback
issues only read queries, and replaying its whole query trace against the
database leaves the database unchanged. -/
theorem c8_read_only (u e c : JsVal) (db : DB) :
    (signIn u e c db).queries.all DbAction.isRead = true
    ∧ (signIn u e c db).queries.foldl applyDbAction db = db := by
  have hall : (signIn u e c db).queries.all DbAction.isRead = true :=
    authorize_queries_reads (resolveEmail u e c) db
  exact ⟨hall, foldl_apply_of_reads db hall⟩

/-- A digit below ten prints as a decimal digit character. -/
theorem digitChar_isDigit {d : Nat} (h : d < 10) : (Nat.digitChar d).isDigit = true := by
  interval_cases d <;> decide

/-- A nonzero digit below ten does not print as the zero character. -/
theorem digitChar_ne_zero {d : Nat} (h1 : d < 10) (h2 : d ≠ 0) :
    Nat.digitChar d ≠ '0' := by
  interval_cases d <;> first | exact absurd rfl h2 | decide

/-- C9: every verification token is the decimal string of an integer in
the range from 100000 to 999999; in particular it has exactly six
characters, all decimal digits, and its leading character is not the
zero digit. -/
theorem c9_token_format (r : Nat) :
    ∃ m : Nat, 100000 ≤ m ∧ m ≤ 999999
      ∧ generateVerificationToken r = jsNumberToString m
      ∧ (generateVerificationToken r).length = 6
      ∧ ∃ c cs, (generateVerificationToken r).data = c :: cs
          ∧ c ≠ '0'
          ∧ ∀ x ∈ (generateVerificationToken r).data, x.isDigit = true := by
  have hlo : 100000 ≤ randomInt 100000 1000000 r := by
    unfold randomInt
    omega
  have hhi : randomInt 100000 1000000 r ≤ 999999 := by
    unfold randomInt
    have hm : r % (1000000 - 100000) < 1000000 - 100000 := Nat.mod_lt r (by norm_num)
    omega
  have hm0 : randomInt 100000 1000000 r ≠ 0 := by omega
  have hlog : Nat.log 10 (randomInt 100000 1000000 r) = 5 := by
    apply Nat.log_eq_of_pow_le_of_lt_pow
    · have e5 : (10 : Nat) ^ 5 = 100000 := by norm_num
      rw [e5]
      exact hlo
    · have e6 : (10 : Nat) ^ 6 = 1000000 := by norm_num
      rw [e6]
      omega
  have hlen : (Nat.digits 10 (randomInt 100000 1000000 r)).length = 6 := by
    rw [Nat.digits_len 10 _ (by norm_num) hm0, hlog]
  have hdata : (generateVerificationToken r).data
      = ((Nat.digits 10 (randomInt 100000 1000000 r)).map Nat.digitChar).reverse := by
    show (jsNumberToString (randomInt 100000 1000000 r)).data = _
    simp only [jsNumberToString, if_neg hm0]
  have hlength : (generateVerificationToken r).length = 6 := by
    show (generateVerificationToken r).data.length = 6
    rw [hdata, List.length_reverse, List.length_map, hlen]
  have hne : Nat.digits 10 (randomInt 100000 1000000 r) ≠ [] := by
    intro e
    rw [e] at hlen
    simp at hlen
  have hlast : (Nat.digits 10 (randomInt 100000 1000000 r)).getLast hne ≠ 0 :=
    Nat.getLast_digit_ne_zero 10 hm0
  have hhead : (generateVerificationToken r).data.head?
      = some (Nat.digitChar ((Nat.digits 10 (randomInt 100000 1000000 r)).getLast hne)) := by
    rw [hdata, List.head?_reverse, List.getLast?_map, List.getLast?_eq_getLast _ hne]
    rfl
  have hall : ∀ x ∈ (generateVerificationToken r).data, x.isDigit = true := by
    intro x hx
    rw [hdata, List.mem_reverse] at hx
    obtain ⟨d, hd, hdx⟩ := List.mem_map.1 hx
    rw [← hdx]
    exact digitChar_isDigit (Nat.digits_lt_base (by norm_num) hd)
  refine ⟨randomInt 100000 1000000 r, hlo, hhi, rfl, hlength, ?_⟩
  cases hsplit : (generateVerificationToken r).data with
  | nil =>
    rw [hsplit] at hhead
    exact Option.noConfusion hhead
  | cons c cs =>
    rw [hsplit] at hhead
    simp only [List.head?_cons] at hhead
    have hc := Option.some.inj hhead
    refine ⟨c, cs, rfl, ?_, ?_⟩
    · rw [hc]
      exact digitChar_ne_zero
        (Nat.digits_lt_base (by norm_num) (List.getLast_mem hne)) hlast
    · intro x hx
      exact hall x (by rw [hsplit]; exact hx)

/-- C10: the candidate-email resolution precedence. A truthy user email is
used first; otherwise the email argument exactly when it is a string;
otherwise the credentials email exactly when it is a string; otherwise the
candidate is null and the callback denies. An empty-string user email is
falsy and falls through to the next source. -/
theorem c10_resolution_precedence (u e c : JsVal) (db : DB) :
    (u.truthy = true → resolveEmail u e c = u)
    ∧ (u.truthy = false → e.isStr = true → resolveEmail u e c = e)
    ∧ (u.truthy = false → e.isStr = false → c.isStr = true → resolveEmail u e c = c)
    ∧ (u.truthy = false → e.isStr = false → c.isStr = false →
        resolveEmail u e c = JsVal.null ∧ (signIn u e c db).result = false)
    ∧ resolveEmail (JsVal.str "") e c = resolveEmail JsVal.null e c := by
  refine ⟨?_, ?_, ?_, ?_, ?_⟩
  · intro hu
    simp [resolveEmail, hu]
  · intro hu he
    simp [resolveEmail, hu, he]
  · intro hu he hc
    simp [resolveEmail, hu, he, hc]
  · intro hu he hc
    have hr : resolveEmail u e c = JsVal.null := by
      simp [resolveEmail, hu, he, hc]
    refine ⟨hr, ?_⟩
    show (authorize (resolveEmail u e c) db).result = false
    rw [hr]
    rfl
  · rfl

/-- Witness for C10: each precedence case at concrete values. -/
theorem c10_resolution_precedence_witness :
    resolveEmail (JsVal.str "user@mail.com") (JsVal.other true) (JsVal.other true)
        = JsVal.str "user@mail.com"
    ∧ resolveEmail JsVal.undefined (JsVal.str "param@mail.com") (JsVal.other true)
        = JsVal.str "param@mail.com"
    ∧ resolveEmail JsVal.undefined (JsVal.other true) (JsVal.str "cred@mail.com")
        = JsVal.str "cred@mail.com"
    ∧ (resolveEmail JsVal.undefined (JsVal.other false) (JsVal.other false) = JsVal.null
        ∧ (signIn JsVal.undefined (JsVal.other false) (JsVal.other false) emptyDb).result = false)
    ∧ resolveEmail (JsVal.str "") (JsVal.other true) (JsVal.other true)
        = resolveEmail JsVal.null (JsVal.other true) (JsVal.other true) :=
  ⟨(c10_resolution_precedence (JsVal.str "user@mail.com") (JsVal.other true)
      (JsVal.other true) emptyDb).1 (by decide),
    (c10_resolution_precedence JsVal.undefined (JsVal.str "param@mail.com")
      (JsVal.other true) emptyDb).2.1 (by decide) (by decide),
    (c10_resolution_precedence JsVal.undefined (JsVal.other true)
      (JsVal.str "cred@mail.com") emptyDb).2.2.1 (by decide) (by decide) (by decide),
    (c10_resolution_precedence JsVal.undefined (JsVal.other false)
      (JsVal.other false) emptyDb).2.2.2.1 (by decide) (by decide) (by decide),
    (c10_resolution_precedence (JsVal.str "") (JsVal.other true)
      (JsVal.other true) emptyDb).2.2.2.2⟩

